import Mathlib

/-!
Verification of the OLE2 Compound File Binary (CFB) writer and the
SummaryInformation property-set encoder of `scripts/generate_fixtures.py`.

Bytes are modelled as `List Nat` with every element `< 256`; multi-byte
little-endian fields are produced by `le16`/`le32`/`le64` (mirroring
Python's `struct.pack` with formats `<H`, `<I`, `<Q`).  Stream names are
modelled as lists of UTF-16 code units (what `str.encode("utf-16-le")`
emits two bytes per unit for).  Failure paths of the Python code
(AssertionError from `_dir_entry`/directory size, IndexError from FAT
index overflow) are modelled by `build_ole2` returning `none`.
-/

namespace DocReader

/-- `FREESECT` sentinel (0xFFFFFFFF). -/
def FREESECT : Nat := 0xFFFFFFFF

/-- `ENDOFCHAIN` sentinel (0xFFFFFFFE). -/
def ENDOFCHAIN : Nat := 0xFFFFFFFE

/-- `FATSECT` sentinel (0xFFFFFFFD). -/
def FATSECT : Nat := 0xFFFFFFFD

/-- `NOSTREAM` sentinel (0xFFFFFFFF). -/
def NOSTREAM : Nat := 0xFFFFFFFF

/-- Sector size in bytes. -/
def SECTOR : Nat := 512

/-- Little-endian 16-bit encoding, as `struct.pack("<H", v)`. -/
def le16 (v : Nat) : List Nat := [v % 256, v / 256 % 256]

/-- Little-endian 32-bit encoding, as `struct.pack("<I", v)`. -/
def le32 (v : Nat) : List Nat :=
  [v % 256, v / 256 % 256, v / 65536 % 256, v / 16777216 % 256]

/-- Little-endian 64-bit encoding, as `struct.pack("<Q", v)`. -/
def le64 (v : Nat) : List Nat :=
  [v % 256, v / 256 % 256, v / 65536 % 256, v / 16777216 % 256,
   v / 4294967296 % 256, v / 1099511627776 % 256,
   v / 281474976710656 % 256, v / 72057594037927936 % 256]

/-- Little-endian 32-bit two's-complement encoding, as
`struct.pack("<i", v)` for `v` in the signed 32-bit range. -/
def le32i (v : Int) : List Nat := le32 ((v % (4294967296 : Int)).toNat)

/-- Byte of an image at offset `i` (0 past the end). -/
def byteAt (bs : List Nat) (i : Nat) : Nat := bs.getD i 0

/-- Little-endian 16-bit value read at offset `off`. -/
def u16At (bs : List Nat) (off : Nat) : Nat :=
  byteAt bs off + 256 * byteAt bs (off + 1)

/-- Little-endian 32-bit value read at offset `off`. -/
def u32At (bs : List Nat) (off : Nat) : Nat :=
  byteAt bs off + 256 * byteAt bs (off + 1)
    + 65536 * byteAt bs (off + 2) + 16777216 * byteAt bs (off + 3)

/-- Ceiling division, Python's `-(-a // b)`. -/
def ceilDiv (a b : Nat) : Nat := (a + b - 1) / b

/-- Python `bytes.ljust(n, c)`: pad on the right up to length `n`
(never truncates). -/
def ljust (l : List Nat) (n : Nat) (c : Nat) : List Nat :=
  l ++ List.replicate (n - l.length) c

/-- A named stream handed to `build_ole2`: the name as UTF-16 code
units, the payload as bytes. -/
structure Stream where
  name : List Nat
  data : List Nat
deriving Repr, DecidableEq, Inhabited

/-- Sector count of a payload: `max(1, -(-len(data) // SECTOR))`. -/
def sectorsFor (data : List Nat) : Nat := max 1 (ceilDiv data.length SECTOR)

/-- Starting sectors assigned from `cur` onward (the allocation loop of
`build_ole2` with accumulator `cur`). -/
def sectorStartsFrom (cur : Nat) : List Stream → List Nat
  | [] => []
  | st :: rest => cur :: sectorStartsFrom (cur + sectorsFor st.data) rest

/-- `sector_starts` of `build_ole2`: allocation begins at `DATA_START = 3`. -/
def sectorStarts (streams : List Stream) : List Nat := sectorStartsFrom 3 streams

/-- Total number of sectors the payloads occupy. -/
def sumSectors (streams : List Stream) : Nat :=
  (streams.map fun st => sectorsFor st.data).sum

/-- Final value of `cur` after allocation: header-reserved sectors 0..2
plus the payload sectors. -/
def totalSectors (streams : List Stream) : Nat := 3 + sumSectors streams

/-- The FAT run-filling loop with the chain-end threshold `last`
explicit: `for j in range(n): fat[s+j] = (s+j+1) if j < last else ENDOFCHAIN`. -/
def fillRunAux (fat : List Nat) (s last n : Nat) : List Nat :=
  (List.range n).foldl
    (fun f j => f.set (s + j) (if j < last then s + j + 1 else ENDOFCHAIN)) fat

/-- One stream's FAT run, as in `build_ole2`:
`for j in range(n): fat[s+j] = (s+j+1) if j < n-1 else ENDOFCHAIN`. -/
def fatFillRun (fat : List Nat) (s n : Nat) : List Nat := fillRunAux fat s (n - 1) n

/-- The FAT after processing `streams` allocated from `cur`. -/
def fatFillAll (fat : List Nat) (cur : Nat) : List Stream → List Nat
  | [] => fat
  | st :: rest =>
      fatFillAll (fatFillRun fat cur (sectorsFor st.data))
        (cur + sectorsFor st.data) rest

/-- The 128-entry FAT of `build_ole2`: all `FREESECT`, then sectors
0/1/2 marked `FATSECT`/`ENDOFCHAIN`/`ENDOFCHAIN`, then one run per
stream. -/
def fatTable (streams : List Stream) : List Nat :=
  fatFillAll
    ((((List.replicate 128 FREESECT).set 0 FATSECT).set 1 ENDOFCHAIN).set 2
      ENDOFCHAIN) 3 streams

/-- `fat_sector = struct.pack("<128I", *fat)`. -/
def fatSectorBytes (streams : List Stream) : List Nat :=
  ((fatTable streams).map le32).flatten

/-- Mini-FAT sector: 128 `FREESECT` entries. -/
def minifatSector : List Nat := ((List.replicate 128 FREESECT).map le32).flatten

/-- `_dir_entry`: a 128-byte OLE2 directory entry (name as UTF-16 code
units; `name.encode("utf-16-le")` is two little-endian bytes per unit). -/
def dir_entry (name : List Nat) (objType start size child left right : Nat) :
    List Nat :=
  let name_u := (name.map le16).flatten
  let name_len := name_u.length + 2
  let name_field := ljust (name_u ++ [0, 0]) 64 0
  name_field ++ le16 name_len ++ [objType] ++ [1]
    ++ le32 left ++ le32 right ++ le32 child
    ++ List.replicate 16 0 ++ le32 0 ++ le64 0 ++ le64 0
    ++ le32 start ++ le32 size ++ le32 0

/-- "Root Entry" as UTF-16 code units. -/
def rootName : List Nat := [82, 111, 111, 116, 32, 69, 110, 116, 114, 121]

/-- The per-stream directory entries: stream entry for `streams[i0]`
(0-based) sits at directory index `i0 + 1` and links `right` to
`i0 + 2` when a next stream exists, else `NOSTREAM`. -/
def streamEntries : List Stream → List Nat → Nat → List (List Nat)
  | [], _, _ => []
  | st :: rest, s :: ss, i =>
      dir_entry st.name 2 s st.data.length NOSTREAM NOSTREAM
        (if rest.isEmpty then NOSTREAM else i + 2)
        :: streamEntries rest ss (i + 1)
  | _ :: _, [], _ => []

/-- The four 128-byte records of the directory sector: Root, stream
entries, zero padding up to 4. -/
def dirEntriesList (streams : List Stream) : List (List Nat) :=
  let root := dir_entry rootName 5 ENDOFCHAIN 0
    (if streams.length = 0 then NOSTREAM else 1) NOSTREAM NOSTREAM
  let entries := root :: streamEntries streams (sectorStarts streams) 0
  entries ++ List.replicate (4 - entries.length) (List.replicate 128 0)

/-- `dir_sector`: the 4 directory records concatenated. -/
def dirSector (streams : List Stream) : List Nat := (dirEntriesList streams).flatten

/-- The fixed 512-byte CFB header of `build_ole2`. -/
def header : List Nat :=
  [0xD0, 0xCF, 0x11, 0xE0, 0xA1, 0xB1, 0x1A, 0xE1]
    ++ List.replicate 16 0
    ++ le16 0x003E ++ le16 0x0003
    ++ le16 0xFFFE
    ++ le16 0x0009 ++ le16 0x0006
    ++ List.replicate 6 0
    ++ le32 0
    ++ le32 1
    ++ le32 1
    ++ le32 0
    ++ le32 0x1000
    ++ le32 2
    ++ le32 1
    ++ le32 ENDOFCHAIN
    ++ le32 0
    ++ le32 0
    ++ (List.replicate 108 (le32 FREESECT)).flatten

/-- The stream-data body: each payload padded with zero bytes to the
next sector boundary (`rem = len % SECTOR`; pad only when `rem ≠ 0`). -/
def body (streams : List Stream) : List Nat :=
  streams.foldl
    (fun acc st =>
      let rem := st.data.length % SECTOR
      acc ++ st.data ++ (if rem = 0 then [] else List.replicate (SECTOR - rem) 0))
    []

/-- The assembled image `hdr + fat_sector + dir_sector + minifat_sector + body`. -/
def assemble (streams : List Stream) : List Nat :=
  header ++ fatSectorBytes streams ++ dirSector streams ++ minifatSector
    ++ body streams

/-- `build_ole2`.  `none` models the Python failure paths: a name longer
than 31 UTF-16 code units (the `_dir_entry` 128-byte assertion), more
than 3 streams (the directory-sector 512-byte assertion), or payload
sectors past FAT entry 127 (IndexError on `fat[s+j]`). -/
def build_ole2 (streams : List Stream) : Option (List Nat) :=
  if streams.any (fun st => 31 < st.name.length) then none
  else if 3 < streams.length then none
  else if 128 < totalSectors streams then none
  else some (assemble streams)

/-! ### SummaryInformation property-set encoder -/

/-- `VT_I4` type tag. -/
def VT_I4 : Nat := 0x0003

/-- `VT_LPSTR` type tag. -/
def VT_LPSTR : Nat := 0x001E

/-- SummaryInformation FMTID bytes (`_FMTID_SUMMARY`). -/
def FMTID_SUMMARY : List Nat :=
  [0xE0, 0x85, 0x9F, 0xF2, 0xF9, 0x4F, 0x68, 0x10,
   0xAB, 0x91, 0x08, 0x00, 0x2B, 0x27, 0xB3, 0xD9]

/-- `SECTION_OFFSET = 48`: 28-byte stream header + 20-byte list entry. -/
def SECTION_OFFSET : Nat := 48

/-- `_prop_i4`: identifier plus a `VT_I4` value (2-byte tag + signed
32-bit little-endian integer). -/
def prop_i4 (pid : Nat) (value : Int) : Nat × List Nat :=
  (pid, le16 VT_I4 ++ le32i value)

/-- `_prop_str`: identifier plus a `VT_LPSTR` value.  The text is
modelled as its latin-1 bytes; a null terminator is appended and the
result null-padded to a 4-byte boundary before being prefixed with the
tag and byte count. -/
def prop_str (pid : Nat) (text : List Nat) : Nat × List Nat :=
  let data := text ++ [0]
  let data :=
    if data.length % 4 = 0 then data
    else data ++ List.replicate (4 - data.length % 4) 0
  (pid, le16 VT_LPSTR ++ le32 data.length ++ data)

/-- The property list of `make_summary_stream`: title (ID 0x02) when
non-empty, author (ID 0x04) when non-empty, then always the page count
(ID 0x0E, `PIDSI_PAGECOUNT`). -/
def summaryProps (page_count : Int) (title author : List Nat) :
    List (Nat × List Nat) :=
  (if title = [] then [] else [prop_str 0x02 title])
    ++ (if author = [] then [] else [prop_str 0x04 author])
    ++ [prop_i4 0x0E page_count]

/-- The offset loop of `make_summary_stream`: records each property's
offset, then advances by the value's length rounded up to a 4-byte
boundary (`off = (off + 3) & ~3`).  Returns the offsets and the final
`off`. -/
def computeOffsets (off : Nat) : List (Nat × List Nat) → List Nat × Nat
  | [] => ([], off)
  | (_, val) :: rest =>
      let off2 := (off + val.length + 3) / 4 * 4
      let res := computeOffsets off2 rest
      (off :: res.1, res.2)

/-- The value-emission loop of `make_summary_stream`: each value
followed by its alignment padding, except the last value which is
emitted without trailing padding. -/
def emitValues : List (Nat × List Nat) → List Nat
  | [] => []
  | [(_, val)] => val
  | (_, val) :: rest =>
      val ++ List.replicate ((4 - val.length % 4) % 4) 0 ++ emitValues rest

/-- The encoded PropertySet section: declared size (the final `off`),
property count, identifier/offset pairs, then the values. -/
def propSetSection (props : List (Nat × List Nat)) : List Nat :=
  let header_size := 8 + 8 * props.length
  let res := computeOffsets header_size props
  le32 res.2 ++ le32 props.length
    ++ ((props.zip res.1).map fun po => le32 po.1.1 ++ le32 po.2).flatten
    ++ emitValues props

/-- The fixed 48-byte property-set stream header. -/
def summaryStreamHeader : List Nat :=
  le16 0xFFFE ++ le16 0x0000
    ++ le32 0x00020006
    ++ List.replicate 16 0
    ++ le32 1
    ++ FMTID_SUMMARY
    ++ le32 SECTION_OFFSET

/-- `make_summary_stream`: the 48-byte stream header followed by the
single PropertySet section. -/
def make_summary_stream (page_count : Int) (title author : List Nat) :
    List Nat :=
  summaryStreamHeader ++ propSetSection (summaryProps page_count title author)

/-! ### Byte-level reading lemmas -/

theorem le16_length (v : Nat) : (le16 v).length = 2 := rfl

theorem le32_length (v : Nat) : (le32 v).length = 4 := rfl

theorem le64_length (v : Nat) : (le64 v).length = 8 := rfl

theorem byteAt_append_right (l1 l2 : List Nat) (off m : Nat)
    (h : off = l1.length + m) : byteAt (l1 ++ l2) off = byteAt l2 m := by
  simp only [byteAt, h]
  rw [List.getD_append_right _ _ _ _ (Nat.le_add_right _ _), Nat.add_sub_cancel_left]

theorem byteAt_append_left (l1 l2 : List Nat) (m : Nat) (h : m < l1.length) :
    byteAt (l1 ++ l2) m = byteAt l1 m := by
  simp only [byteAt]
  exact List.getD_append _ _ _ _ h

theorem u32At_append_right (l1 l2 : List Nat) (off m : Nat)
    (h : off = l1.length + m) : u32At (l1 ++ l2) off = u32At l2 m := by
  simp only [u32At]
  rw [byteAt_append_right l1 l2 off m h,
    byteAt_append_right l1 l2 (off + 1) (m + 1) (by omega),
    byteAt_append_right l1 l2 (off + 2) (m + 2) (by omega),
    byteAt_append_right l1 l2 (off + 3) (m + 3) (by omega)]

theorem u32At_append_left (l1 l2 : List Nat) (off : Nat)
    (h : off + 3 < l1.length) : u32At (l1 ++ l2) off = u32At l1 off := by
  simp only [u32At]
  rw [byteAt_append_left l1 l2 off (by omega),
    byteAt_append_left l1 l2 (off + 1) (by omega),
    byteAt_append_left l1 l2 (off + 2) (by omega),
    byteAt_append_left l1 l2 (off + 3) (by omega)]

theorem u16At_append_right (l1 l2 : List Nat) (off m : Nat)
    (h : off = l1.length + m) : u16At (l1 ++ l2) off = u16At l2 m := by
  simp only [u16At]
  rw [byteAt_append_right l1 l2 off m h,
    byteAt_append_right l1 l2 (off + 1) (m + 1) (by omega)]

theorem u16At_append_left (l1 l2 : List Nat) (off : Nat)
    (h : off + 1 < l1.length) : u16At (l1 ++ l2) off = u16At l1 off := by
  simp only [u16At]
  rw [byteAt_append_left l1 l2 off (by omega),
    byteAt_append_left l1 l2 (off + 1) (by omega)]

theorem u32At_le32_append (v : Nat) (rest : List Nat) (hv : v < 4294967296) :
    u32At (le32 v ++ rest) 0 = v := by
  simp only [u32At, byteAt, le32]
  simp only [List.cons_append, List.getD_cons_zero, List.getD_cons_succ]
  omega

theorem getD_replicate {α : Type} (n : Nat) (a d : α) (k : Nat) :
    (List.replicate n a).getD k d = if k < n then a else d := by
  by_cases h : k < n
  · rw [List.getD_eq_getElem _ _ (by simpa using h)]
    simp [h]
  · rw [List.getD_eq_default _ _ (by simpa using Nat.le_of_not_lt h)]
    simp [h]

theorem flatten_map_le32_length (l : List Nat) :
    ((l.map le32).flatten).length = 4 * l.length := by
  induction l with
  | nil => rfl
  | cons v rest ih =>
      simp only [List.map_cons, List.flatten_cons, List.length_append, ih,
        le32_length, List.length_cons]
      omega

theorem u32At_flatten_le32 (l : List Nat) (k : Nat) (hk : k < l.length)
    (hv : ∀ i, i < l.length → l.getD i 0 < 4294967296) :
    u32At ((l.map le32).flatten) (4 * k) = l.getD k 0 := by
  induction l generalizing k with
  | nil => simp at hk
  | cons v rest ih =>
      cases k with
      | zero =>
          simp only [List.map_cons, List.flatten_cons, Nat.mul_zero,
            List.getD_cons_zero]
          exact u32At_le32_append v _ (by simpa using hv 0 (by simp))
      | succ k' =>
          simp only [List.map_cons, List.flatten_cons, List.getD_cons_succ]
          rw [u32At_append_right (le32 v) _ (4 * (k' + 1)) (4 * k')
            (by simp [le32_length]; omega)]
          exact ih k' (by simpa using hk)
            (fun i hi => by simpa using hv (i + 1) (by simpa using hi))

theorem getD_set_self (l : List Nat) (i a d : Nat) (h : i < l.length) :
    (l.set i a).getD i d = a := by
  rw [List.getD_eq_getElem _ _ (by simpa using h)]
  simp [List.getElem_set]

theorem getD_set_ne (l : List Nat) (i j a d : Nat) (h : i ≠ j) :
    (l.set i a).getD j d = l.getD j d := by
  by_cases hj : j < l.length
  · rw [List.getD_eq_getElem _ _ (by simpa using hj), List.getElem_set,
      List.getD_eq_getElem _ _ hj]
    simp [h]
  · rw [List.getD_eq_default _ _ (by simpa using Nat.le_of_not_lt hj),
      List.getD_eq_default _ _ (Nat.le_of_not_lt hj)]

/-! ### FAT characterization -/

theorem fillRunAux_succ (fat : List Nat) (s last m : Nat) :
    fillRunAux fat s last (m + 1) =
      (fillRunAux fat s last m).set (s + m)
        (if m < last then s + m + 1 else ENDOFCHAIN) := by
  unfold fillRunAux
  rw [List.range_succ, List.foldl_append, List.foldl_cons, List.foldl_nil]

theorem fillRunAux_length (fat : List Nat) (s last n : Nat) :
    (fillRunAux fat s last n).length = fat.length := by
  induction n with
  | zero => rfl
  | succ m ih => rw [fillRunAux_succ, List.length_set, ih]

theorem fillRunAux_getD (fat : List Nat) (s last n k : Nat)
    (hk : k < fat.length) :
    (fillRunAux fat s last n).getD k 0 =
      if s ≤ k ∧ k < s + n then
        (if k < s + last then k + 1 else ENDOFCHAIN)
      else fat.getD k 0 := by
  induction n with
  | zero =>
      simp only [fillRunAux, List.range_zero, List.foldl_nil]
      rw [if_neg (by omega)]
  | succ m ih =>
      rw [fillRunAux_succ]
      by_cases hlast : k = s + m
      · subst hlast
        rw [getD_set_self _ _ _ _ (by rw [fillRunAux_length]; exact hk)]
        have h1 : s ≤ s + m ∧ s + m < s + (m + 1) := by omega
        simp only [h1, and_self, if_true]
        by_cases h2 : m < last
        · simp [h2, show s + m < s + last by omega]
        · simp [h2, show ¬(s + m < s + last) by omega]
      · rw [getD_set_ne _ _ _ _ _ (by omega)]
        rw [ih]
        by_cases h1 : s ≤ k ∧ k < s + m
        · simp only [h1, and_self, if_true]
          have h2 : s ≤ k ∧ k < s + (m + 1) := by omega
          simp [h2]
        · simp only [h1, if_false]
          have h2 : ¬(s ≤ k ∧ k < s + (m + 1)) := by omega
          simp [h2]

theorem fatFillRun_length (fat : List Nat) (s n : Nat) :
    (fatFillRun fat s n).length = fat.length := fillRunAux_length _ _ _ _

theorem fatFillRun_getD (fat : List Nat) (s n k : Nat) (hk : k < fat.length) :
    (fatFillRun fat s n).getD k 0 =
      if s ≤ k ∧ k < s + n then
        (if k + 1 < s + n then k + 1 else ENDOFCHAIN)
      else fat.getD k 0 := by
  rw [fatFillRun, fillRunAux_getD _ _ _ _ _ hk]
  by_cases h1 : s ≤ k ∧ k < s + n
  · simp only [h1, and_self, if_true]
    by_cases h2 : k < s + (n - 1)
    · simp [h2, show k + 1 < s + n by omega]
    · simp [h2, show ¬(k + 1 < s + n) by omega]
  · simp [h1]

theorem fatFillAll_length (fat : List Nat) (cur : Nat) (streams : List Stream) :
    (fatFillAll fat cur streams).length = fat.length := by
  induction streams generalizing fat cur with
  | nil => rfl
  | cons st rest ih => rw [fatFillAll, ih, fatFillRun_length]

theorem fatFillAll_getD_lt (fat : List Nat) (cur : Nat) (streams : List Stream)
    (k : Nat) (hk : k < cur) :
    (fatFillAll fat cur streams).getD k 0 = fat.getD k 0 := by
  induction streams generalizing fat cur with
  | nil => rfl
  | cons st rest ih =>
      rw [fatFillAll, ih _ _ (by omega)]
      by_cases hkl : k < fat.length
      · rw [fatFillRun_getD _ _ _ _ hkl]
        simp [show ¬(cur ≤ k ∧ k < cur + sectorsFor st.data) by omega]
      · rw [List.getD_eq_default _ _ (by rw [fatFillRun_length]; omega),
          List.getD_eq_default _ _ (by omega)]

theorem fatFillAll_getD_ge (fat : List Nat) (cur : Nat) (streams : List Stream)
    (k : Nat) (hk : cur + sumSectors streams ≤ k) :
    (fatFillAll fat cur streams).getD k 0 = fat.getD k 0 := by
  induction streams generalizing fat cur with
  | nil => rfl
  | cons st rest ih =>
      have hsum : sumSectors (st :: rest) = sectorsFor st.data + sumSectors rest := by
        simp [sumSectors]
      rw [fatFillAll, ih _ _ (by omega)]
      by_cases hkl : k < fat.length
      · rw [fatFillRun_getD _ _ _ _ hkl]
        have h1 : 1 ≤ sectorsFor st.data := le_max_left _ _
        simp [show ¬(cur ≤ k ∧ k < cur + sectorsFor st.data) by omega]
      · rw [List.getD_eq_default _ _ (by rw [fatFillRun_length]; omega),
          List.getD_eq_default _ _ (by omega)]

/-- Entry values inside the run of the `i`-th stream. -/
theorem fatFillAll_getD_run (fat : List Nat) (cur : Nat) (streams : List Stream)
    (i j : Nat) (hi : i < streams.length)
    (hj : j < sectorsFor ((streams.getD i default).data))
    (hcap : cur + sumSectors streams ≤ fat.length) :
    (fatFillAll fat cur streams).getD
        ((sectorStartsFrom cur streams).getD i 0 + j) 0 =
      if j + 1 < sectorsFor ((streams.getD i default).data) then
        (sectorStartsFrom cur streams).getD i 0 + j + 1
      else ENDOFCHAIN := by
  induction streams generalizing fat cur i with
  | nil => simp at hi
  | cons st rest ih =>
      have hsum : sumSectors (st :: rest) = sectorsFor st.data + sumSectors rest := by
        simp [sumSectors]
      cases i with
      | zero =>
          simp only [sectorStartsFrom, List.getD_cons_zero] at hj ⊢
          rw [fatFillAll,
            fatFillAll_getD_lt _ _ _ _ (by omega),
            fatFillRun_getD _ _ _ _ (by omega)]
          simp only [show cur ≤ cur + j ∧ cur + j < cur + sectorsFor st.data from
            by omega, and_self, if_true]
          by_cases h2 : j + 1 < sectorsFor st.data
          · simp [h2, show cur + j + 1 < cur + sectorsFor st.data by omega]
          · simp [h2, show ¬(cur + j + 1 < cur + sectorsFor st.data) by omega]
      | succ i' =>
          simp only [sectorStartsFrom, List.getD_cons_succ] at hj ⊢
          rw [fatFillAll]
          exact ih _ _ i' (by simpa using hi) hj
            (by rw [fatFillRun_length]; omega)

/-- Starting sectors are at least the allocation base. -/
theorem sectorStartsFrom_getD_ge (cur : Nat) (streams : List Stream) (i : Nat)
    (hi : i < streams.length) :
    cur ≤ (sectorStartsFrom cur streams).getD i 0 := by
  induction streams generalizing cur i with
  | nil => simp at hi
  | cons st rest ih =>
      cases i with
      | zero => simp [sectorStartsFrom]
      | succ i' =>
          simp only [sectorStartsFrom, List.getD_cons_succ]
          have := ih (cur + sectorsFor st.data) i' (by simpa using hi)
          omega

/-- Each stream's run ends within the allocated range. -/
theorem sectorStartsFrom_getD_add_le (cur : Nat) (streams : List Stream)
    (i : Nat) (hi : i < streams.length) :
    (sectorStartsFrom cur streams).getD i 0
        + sectorsFor ((streams.getD i default).data)
      ≤ cur + sumSectors streams := by
  induction streams generalizing cur i with
  | nil => simp at hi
  | cons st rest ih =>
      have hsum : sumSectors (st :: rest) = sectorsFor st.data + sumSectors rest := by
        simp [sumSectors]
      cases i with
      | zero => simp only [sectorStartsFrom, List.getD_cons_zero]; omega
      | succ i' =>
          simp only [sectorStartsFrom, List.getD_cons_succ]
          have := ih (cur + sectorsFor st.data) i' (by simpa using hi)
          omega

/-- The initial FAT of `build_ole2` before the stream runs. -/
def fatInit : List Nat :=
  (((List.replicate 128 FREESECT).set 0 FATSECT).set 1 ENDOFCHAIN).set 2
    ENDOFCHAIN

theorem fatInit_length : fatInit.length = 128 := by
  simp [fatInit]

theorem fatTable_eq : ∀ streams, fatTable streams = fatFillAll fatInit 3 streams :=
  fun _ => rfl

theorem fatTable_length (streams : List Stream) :
    (fatTable streams).length = 128 := by
  rw [fatTable_eq, fatFillAll_length, fatInit_length]

theorem fatInit_getD (k : Nat) :
    fatInit.getD k 0 =
      if k = 0 then FATSECT
      else if k = 1 then ENDOFCHAIN
      else if k = 2 then ENDOFCHAIN
      else if k < 128 then FREESECT
      else 0 := by
  rcases Nat.lt_or_ge k 128 with hk | hk
  · by_cases h0 : k = 0
    · subst h0
      rw [fatInit, getD_set_ne _ _ _ _ _ (by omega),
        getD_set_ne _ _ _ _ _ (by omega), getD_set_self _ _ _ _ (by simp)]
      simp
    · by_cases h1 : k = 1
      · subst h1
        rw [fatInit, getD_set_ne _ _ _ _ _ (by omega),
          getD_set_self _ _ _ _ (by simp)]
        simp
      · by_cases h2 : k = 2
        · subst h2
          rw [fatInit, getD_set_self _ _ _ _ (by simp)]
          simp
        · rw [fatInit, getD_set_ne _ _ _ _ _ (by omega),
            getD_set_ne _ _ _ _ _ (by omega), getD_set_ne _ _ _ _ _ (by omega),
            getD_replicate]
          simp [h0, h1, h2, hk]
  · rw [List.getD_eq_default _ _ (by rw [fatInit_length]; omega)]
    have h0 : k ≠ 0 := by omega
    have h1 : k ≠ 1 := by omega
    have h2 : k ≠ 2 := by omega
    simp [h0, h1, h2, show ¬(k < 128) by omega]

theorem fatFillAll_getD_bound (fat : List Nat) (cur : Nat)
    (streams : List Stream) (k : Nat) (hk : k < fat.length)
    (hlen : fat.length < 4294967296)
    (h : ∀ j, j < fat.length → fat.getD j 0 < 4294967296) :
    (fatFillAll fat cur streams).getD k 0 < 4294967296 := by
  induction streams generalizing fat cur with
  | nil => exact h k hk
  | cons st rest ih =>
      rw [fatFillAll]
      refine ih _ _ (by rw [fatFillRun_length]; exact hk)
        (by rw [fatFillRun_length]; exact hlen) ?_
      intro j hj
      rw [fatFillRun_length] at hj
      rw [fatFillRun_getD _ _ _ _ hj]
      split
      · split
        · omega
        · simp [ENDOFCHAIN]
      · exact h j hj

theorem fatTable_getD_bound (streams : List Stream) (k : Nat) (hk : k < 128) :
    (fatTable streams).getD k 0 < 4294967296 := by
  rw [fatTable_eq]
  refine fatFillAll_getD_bound _ _ _ _ (by rw [fatInit_length]; exact hk)
    (by rw [fatInit_length]; omega) ?_
  intro j hj
  rw [fatInit_getD]
  split
  · simp [FATSECT]
  · split
    · simp [ENDOFCHAIN]
    · split
      · simp [ENDOFCHAIN]
      · split
        · simp [FREESECT]
        · omega

/-- Reserved FAT entries 0/1/2. -/
theorem fatTable_getD_reserved (streams : List Stream) :
    (fatTable streams).getD 0 0 = FATSECT ∧
      (fatTable streams).getD 1 0 = ENDOFCHAIN ∧
        (fatTable streams).getD 2 0 = ENDOFCHAIN := by
  rw [fatTable_eq]
  refine ⟨?_, ?_, ?_⟩ <;>
    rw [fatFillAll_getD_lt _ _ _ _ (by omega), fatInit_getD] <;> simp

/-- FAT entries inside the run of stream `i`. -/
theorem fatTable_getD_run (streams : List Stream) (i j : Nat)
    (hi : i < streams.length)
    (hj : j < sectorsFor ((streams.getD i default).data))
    (hcap : totalSectors streams ≤ 128) :
    (fatTable streams).getD ((sectorStarts streams).getD i 0 + j) 0 =
      if j + 1 < sectorsFor ((streams.getD i default).data) then
        (sectorStarts streams).getD i 0 + j + 1
      else ENDOFCHAIN := by
  rw [fatTable_eq, sectorStarts]
  exact fatFillAll_getD_run fatInit 3 streams i j hi hj
    (by rw [fatInit_length]; simpa [totalSectors] using hcap)

/-- FAT entries past the last allocated sector are `FREESECT`. -/
theorem fatTable_getD_free (streams : List Stream) (k : Nat)
    (hk : totalSectors streams ≤ k) (hk2 : k < 128) :
    (fatTable streams).getD k 0 = FREESECT := by
  rw [fatTable_eq,
    fatFillAll_getD_ge _ _ _ _ (by simpa [totalSectors] using hk), fatInit_getD]
  have h0 : k ≠ 0 := by simp [totalSectors] at hk; omega
  have h1 : k ≠ 1 := by simp [totalSectors] at hk; omega
  have h2 : k ≠ 2 := by simp [totalSectors] at hk; omega
  simp [h0, h1, h2, hk2]

/-! ### Success conditions and component sizes -/

set_option maxRecDepth 4000

theorem build_ole2_some (streams : List Stream) (img : List Nat)
    (h : build_ole2 streams = some img) :
    img = assemble streams ∧ (∀ st ∈ streams, st.name.length ≤ 31) ∧
      streams.length ≤ 3 ∧ totalSectors streams ≤ 128 := by
  rw [build_ole2] at h
  split at h
  · exact absurd h (by simp)
  · split at h
    · exact absurd h (by simp)
    · split at h
      · exact absurd h (by simp)
      · rename_i hname hcount hcap
        refine ⟨by injection h with h; exact h.symm, ?_, by omega, by omega⟩
        intro st hst
        by_contra hlong
        exact hname (List.any_eq_true.2 ⟨st, hst, by simpa using hlong⟩)

theorem header_length : header.length = 512 := by decide

theorem minifatSector_length : minifatSector.length = 512 := by
  rw [minifatSector, flatten_map_le32_length, List.length_replicate]

theorem fatSectorBytes_length (streams : List Stream) :
    (fatSectorBytes streams).length = 512 := by
  rw [fatSectorBytes, flatten_map_le32_length, fatTable_length]

theorem flatten_map_le16_length (l : List Nat) :
    ((l.map le16).flatten).length = 2 * l.length := by
  induction l with
  | nil => rfl
  | cons c rest ih =>
      simp only [List.map_cons, List.flatten_cons, List.length_append, ih,
        le16_length, List.length_cons]
      omega

theorem dir_entry_length (name : List Nat) (objType start size child left right : Nat)
    (hname : name.length ≤ 31) :
    (dir_entry name objType start size child left right).length = 128 := by
  simp only [dir_entry, ljust, List.length_append, flatten_map_le16_length,
    List.length_replicate, le16_length, le32_length, le64_length,
    List.length_cons, List.length_nil]
  omega

theorem streamEntries_length_eq (streams : List Stream) (ss : List Nat) (i : Nat)
    (hss : streams.length ≤ ss.length) :
    (streamEntries streams ss i).length = streams.length := by
  induction streams generalizing ss i with
  | nil => rfl
  | cons st rest ih =>
      cases ss with
      | nil => simp at hss
      | cons s ss' =>
          simp only [streamEntries, List.length_cons]
          rw [ih ss' (i + 1) (by simpa using hss)]

theorem sectorStartsFrom_length (cur : Nat) (streams : List Stream) :
    (sectorStartsFrom cur streams).length = streams.length := by
  induction streams generalizing cur with
  | nil => rfl
  | cons st rest ih => simp [sectorStartsFrom, ih]

theorem dirEntriesList_length (streams : List Stream)
    (hcount : streams.length ≤ 3) :
    (dirEntriesList streams).length = 4 := by
  simp only [dirEntriesList, List.length_append, List.length_cons,
    List.length_replicate]
  rw [streamEntries_length_eq _ _ _ (by rw [sectorStarts, sectorStartsFrom_length])]
  omega

theorem dirEntriesList_entry_length (streams : List Stream)
    (hname : ∀ st ∈ streams, st.name.length ≤ 31) :
    ∀ e ∈ dirEntriesList streams, e.length = 128 := by
  intro e he
  simp only [dirEntriesList, List.mem_append, List.mem_cons] at he
  rcases he with (he | he) | he
  · subst he
    exact dir_entry_length _ _ _ _ _ _ _ (by decide)
  · -- a stream entry
    have : ∀ sts ss i, (∀ st ∈ sts, (Stream.name st).length ≤ 31) →
        e ∈ streamEntries sts ss i → e.length = 128 := by
      intro sts
      induction sts with
      | nil => intro ss i _ h; simp [streamEntries] at h
      | cons st rest ih =>
          intro ss i hn h
          cases ss with
          | nil => simp [streamEntries] at h
          | cons s ss' =>
              simp only [streamEntries, List.mem_cons] at h
              rcases h with h | h
              · subst h
                exact dir_entry_length _ _ _ _ _ _ _ (hn st (by simp))
              · exact ih ss' (i + 1) (fun x hx => hn x (by simp [hx])) h
    exact this streams _ 0 hname he
  · rw [List.eq_of_mem_replicate he, List.length_replicate]

theorem dirSector_length (streams : List Stream)
    (hname : ∀ st ∈ streams, st.name.length ≤ 31)
    (hcount : streams.length ≤ 3) :
    (dirSector streams).length = 512 := by
  rw [dirSector, List.length_flatten]
  have he := dirEntriesList_entry_length streams hname
  have h4 := dirEntriesList_length streams hcount
  calc ((dirEntriesList streams).map List.length).sum
      = ((dirEntriesList streams).map fun _ => 128).sum := by
        congr 1
        exact List.map_congr_left fun e hee => he e hee
    _ = 512 := by
        rw [List.map_const', h4]
        decide

/-! ### Directory-entry field extraction -/

theorem name_field_length (name : List Nat) (hname : name.length ≤ 31) :
    (ljust ((name.map le16).flatten ++ [0, 0]) 64 0).length = 64 := by
  simp only [ljust, List.length_append, flatten_map_le16_length,
    List.length_replicate, List.length_cons, List.length_nil]
  omega

theorem dir_entry_u32_left (name : List Nat)
    (objType start size child left right : Nat) (hname : name.length ≤ 31)
    (hv : left < 4294967296) :
    u32At (dir_entry name objType start size child left right) 68 = left := by
  simp only [dir_entry, List.append_assoc]
  rw [u32At_append_right _ _ 68 4 (by rw [name_field_length _ hname]),
    u32At_append_right _ _ 4 2 (by rw [le16_length]),
    u32At_append_right _ _ 2 1 (by simp),
    u32At_append_right _ _ 1 0 (by simp)]
  exact u32At_le32_append _ _ hv

theorem dir_entry_u32_right (name : List Nat)
    (objType start size child left right : Nat) (hname : name.length ≤ 31)
    (hv : right < 4294967296) :
    u32At (dir_entry name objType start size child left right) 72 = right := by
  simp only [dir_entry, List.append_assoc]
  rw [u32At_append_right _ _ 72 8 (by rw [name_field_length _ hname]),
    u32At_append_right _ _ 8 6 (by rw [le16_length]),
    u32At_append_right _ _ 6 5 (by simp),
    u32At_append_right _ _ 5 4 (by simp),
    u32At_append_right _ _ 4 0 (by rw [le32_length])]
  exact u32At_le32_append _ _ hv

theorem dir_entry_u32_child (name : List Nat)
    (objType start size child left right : Nat) (hname : name.length ≤ 31)
    (hv : child < 4294967296) :
    u32At (dir_entry name objType start size child left right) 76 = child := by
  simp only [dir_entry, List.append_assoc]
  rw [u32At_append_right _ _ 76 12 (by rw [name_field_length _ hname]),
    u32At_append_right _ _ 12 10 (by rw [le16_length]),
    u32At_append_right _ _ 10 9 (by simp),
    u32At_append_right _ _ 9 8 (by simp),
    u32At_append_right _ _ 8 4 (by rw [le32_length]),
    u32At_append_right _ _ 4 0 (by rw [le32_length])]
  exact u32At_le32_append _ _ hv

theorem dir_entry_u32_start (name : List Nat)
    (objType start size child left right : Nat) (hname : name.length ≤ 31)
    (hv : start < 4294967296) :
    u32At (dir_entry name objType start size child left right) 116 = start := by
  simp only [dir_entry, List.append_assoc]
  rw [u32At_append_right _ _ 116 52 (by rw [name_field_length _ hname]),
    u32At_append_right _ _ 52 50 (by rw [le16_length]),
    u32At_append_right _ _ 50 49 (by simp),
    u32At_append_right _ _ 49 48 (by simp),
    u32At_append_right _ _ 48 44 (by rw [le32_length]),
    u32At_append_right _ _ 44 40 (by rw [le32_length]),
    u32At_append_right _ _ 40 36 (by rw [le32_length]),
    u32At_append_right _ _ 36 20 (by rw [List.length_replicate]),
    u32At_append_right _ _ 20 16 (by rw [le32_length]),
    u32At_append_right _ _ 16 8 (by rw [le64_length]),
    u32At_append_right _ _ 8 0 (by rw [le64_length])]
  exact u32At_le32_append _ _ hv

theorem dir_entry_u32_size (name : List Nat)
    (objType start size child left right : Nat) (hname : name.length ≤ 31)
    (hv : size < 4294967296) :
    u32At (dir_entry name objType start size child left right) 120 = size := by
  simp only [dir_entry, List.append_assoc]
  rw [u32At_append_right _ _ 120 56 (by rw [name_field_length _ hname]),
    u32At_append_right _ _ 56 54 (by rw [le16_length]),
    u32At_append_right _ _ 54 53 (by simp),
    u32At_append_right _ _ 53 52 (by simp),
    u32At_append_right _ _ 52 48 (by rw [le32_length]),
    u32At_append_right _ _ 48 44 (by rw [le32_length]),
    u32At_append_right _ _ 44 40 (by rw [le32_length]),
    u32At_append_right _ _ 40 24 (by rw [List.length_replicate]),
    u32At_append_right _ _ 24 20 (by rw [le32_length]),
    u32At_append_right _ _ 20 12 (by rw [le64_length]),
    u32At_append_right _ _ 12 4 (by rw [le64_length]),
    u32At_append_right _ _ 4 0 (by rw [le32_length])]
  exact u32At_le32_append _ _ hv

/-! ### Reading fields of the assembled image -/

theorem assemble_eq (streams : List Stream) :
    assemble streams =
      header ++ (fatSectorBytes streams ++ (dirSector streams
        ++ (minifatSector ++ body streams))) := by
  simp [assemble, List.append_assoc]

theorem u32At_assemble_header (streams : List Stream) (off : Nat)
    (hoff : off + 3 < 512) :
    u32At (assemble streams) off = u32At header off := by
  rw [assemble_eq]
  exact u32At_append_left _ _ _ (by rw [header_length]; exact hoff)

theorem u16At_assemble_header (streams : List Stream) (off : Nat)
    (hoff : off + 1 < 512) :
    u16At (assemble streams) off = u16At header off := by
  rw [assemble_eq]
  exact u16At_append_left _ _ _ (by rw [header_length]; exact hoff)

theorem byteAt_assemble_header (streams : List Stream) (off : Nat)
    (hoff : off < 512) :
    byteAt (assemble streams) off = byteAt header off := by
  rw [assemble_eq]
  exact byteAt_append_left _ _ _ (by rw [header_length]; exact hoff)

theorem u32At_assemble_fat (streams : List Stream) (k : Nat) (hk : k < 128) :
    u32At (assemble streams) (512 + 4 * k) = (fatTable streams).getD k 0 := by
  rw [assemble_eq,
    u32At_append_right _ _ (512 + 4 * k) (4 * k) (by rw [header_length]),
    u32At_append_left _ _ (4 * k) (by rw [fatSectorBytes_length]; omega)]
  exact u32At_flatten_le32 _ k (by rw [fatTable_length]; exact hk)
    (fun i hi => fatTable_getD_bound streams i (by rwa [fatTable_length] at hi))

theorem u32At_assemble_dir (streams : List Stream) (m : Nat)
    (hm : m + 3 < 512)
    (hname : ∀ st ∈ streams, st.name.length ≤ 31)
    (hcount : streams.length ≤ 3) :
    u32At (assemble streams) (1024 + m) = u32At (dirSector streams) m := by
  rw [assemble_eq,
    u32At_append_right _ _ (1024 + m) (512 + m) (by rw [header_length]; omega),
    u32At_append_right _ _ (512 + m) m (by rw [fatSectorBytes_length]),
    u32At_append_left _ _ m (by rw [dirSector_length streams hname hcount]; omega)]

theorem u32At_flatten_chunks (chunks : List (List Nat))
    (hc : ∀ c ∈ chunks, c.length = 128) (e f : Nat) (he : e < chunks.length)
    (hf : f + 3 < 128) :
    u32At chunks.flatten (128 * e + f) = u32At (chunks.getD e []) f := by
  induction chunks generalizing e with
  | nil => simp at he
  | cons c rest ih =>
      cases e with
      | zero =>
          simp only [List.flatten_cons, Nat.mul_zero, Nat.zero_add,
            List.getD_cons_zero]
          exact u32At_append_left _ _ _ (by rw [hc c (by simp)]; omega)
      | succ e' =>
          simp only [List.flatten_cons, List.getD_cons_succ]
          rw [u32At_append_right c _ (128 * (e' + 1) + f) (128 * e' + f)
            (by rw [hc c (by simp)]; ring)]
          exact ih (fun x hx => hc x (by simp [hx])) e' (by simpa using he)

theorem u32At_dirSector_entry (streams : List Stream) (e f : Nat)
    (hname : ∀ st ∈ streams, st.name.length ≤ 31)
    (hcount : streams.length ≤ 3) (he : e < 4) (hf : f + 3 < 128) :
    u32At (dirSector streams) (128 * e + f) =
      u32At ((dirEntriesList streams).getD e []) f := by
  rw [dirSector]
  exact u32At_flatten_chunks _ (dirEntriesList_entry_length streams hname) e f
    (by rw [dirEntriesList_length streams hcount]; exact he) hf

theorem u32At_assemble_minifat (streams : List Stream) (k : Nat) (hk : k < 128)
    (hname : ∀ st ∈ streams, st.name.length ≤ 31)
    (hcount : streams.length ≤ 3) :
    u32At (assemble streams) (1536 + 4 * k) = FREESECT := by
  rw [assemble_eq,
    u32At_append_right _ _ (1536 + 4 * k) (1024 + 4 * k)
      (by rw [header_length]; omega),
    u32At_append_right _ _ (1024 + 4 * k) (512 + 4 * k)
      (by rw [fatSectorBytes_length]; omega),
    u32At_append_right _ _ (512 + 4 * k) (4 * k)
      (by rw [dirSector_length streams hname hcount]),
    u32At_append_left _ _ (4 * k) (by rw [minifatSector_length]; omega),
    minifatSector,
    u32At_flatten_le32 _ k (by rw [List.length_replicate]; exact hk)
      (fun i hi => by rw [getD_replicate]; split <;> simp [FREESECT]),
    getD_replicate]
  simp [hk]

/-! ### Body layout -/

/-- One stream's (padded) contribution to the body. -/
def bodyChunk (st : Stream) : List Nat :=
  st.data ++
    (if st.data.length % SECTOR = 0 then []
     else List.replicate (SECTOR - st.data.length % SECTOR) 0)

theorem body_foldl (a : List Nat) (streams : List Stream) :
    streams.foldl
        (fun acc st =>
          let rem := st.data.length % SECTOR
          acc ++ st.data ++
            (if rem = 0 then [] else List.replicate (SECTOR - rem) 0)) a =
      a ++ (streams.map bodyChunk).flatten := by
  induction streams generalizing a with
  | nil => simp
  | cons st rest ih =>
      simp only [List.foldl_cons, List.map_cons, List.flatten_cons, ih]
      simp [bodyChunk, List.append_assoc]

theorem body_eq (streams : List Stream) :
    body streams = (streams.map bodyChunk).flatten := by
  rw [body, body_foldl]
  simp

theorem bodyChunk_length (st : Stream) :
    (bodyChunk st).length = ceilDiv st.data.length SECTOR * SECTOR := by
  rw [bodyChunk]
  split <;> rename_i h <;>
    simp only [SECTOR, ceilDiv, List.length_append, List.length_replicate,
      List.length_nil] at h ⊢ <;> omega

theorem body_length (streams : List Stream) :
    (body streams).length =
      (streams.map fun st => ceilDiv st.data.length SECTOR * SECTOR).sum := by
  rw [body_eq, List.length_flatten, List.map_map]
  congr 1
  exact List.map_congr_left fun st _ => bodyChunk_length st

theorem assemble_length (streams : List Stream)
    (hname : ∀ st ∈ streams, st.name.length ≤ 31)
    (hcount : streams.length ≤ 3) :
    (assemble streams).length = 2048 + (body streams).length := by
  rw [assemble_eq]
  simp only [List.length_append, header_length, fatSectorBytes_length,
    dirSector_length streams hname hcount, minifatSector_length]
  omega

/-! ### Shared arithmetic helpers -/

theorem sum_chunks_mod (l : List Stream) :
    ((l.map fun st => ceilDiv st.data.length 512 * 512).sum) % 512 = 0 := by
  induction l with
  | nil => rfl
  | cons st rest ih =>
      simp only [List.map_cons, List.sum_cons]
      omega

/-! ### Claims -/

/-- C7: for every stream list accepted by `build_ole2` (0 to 3 streams,
within the single-FAT-sector capacity), the output length is an exact
multiple of 512 and equals `4*512 + Σ ceil(len(payload_i)/512)*512`. -/
theorem C7_output_length (streams : List Stream) (img : List Nat)
    (h : build_ole2 streams = some img) :
    img.length % 512 = 0 ∧
      img.length = 4 * 512 +
        ((streams.map fun st => ceilDiv st.data.length 512 * 512).sum) := by
  obtain ⟨himg, hname, hcount, hcap⟩ := build_ole2_some streams img h
  subst himg
  rw [assemble_length streams hname hcount, body_length streams]
  have hs : (streams.map fun st => ceilDiv st.data.length SECTOR * SECTOR) =
      streams.map fun st => ceilDiv st.data.length 512 * 512 := rfl
  rw [hs]
  have hmod := sum_chunks_mod streams
  omega

/-- C7 witness: the empty input, `build` output 2048 bytes. -/
theorem C7_output_length_witness :
    (assemble []).length % 512 = 0 ∧
      (assemble []).length = 4 * 512 +
        (([] : List Stream).map fun st => ceilDiv st.data.length 512 * 512).sum :=
  C7_output_length [] (assemble []) rfl

/-- C9: the Mini-FAT sector at absolute sector 2 (image bytes
1536..2048) is 128 `FREESECT` entries, none of which is `ENDOFCHAIN`;
the FAT's own entry for sector 2 is `ENDOFCHAIN`; and the header records
first mini-FAT sector 2 (offset 60) with mini-FAT sector count 1
(offset 64). -/
theorem C9_minifat (streams : List Stream) (img : List Nat)
    (h : build_ole2 streams = some img) :
    (∀ k, k < 128 → u32At img (1536 + 4 * k) = FREESECT) ∧
      FREESECT ≠ ENDOFCHAIN ∧
      (fatTable streams).getD 2 0 = ENDOFCHAIN ∧
      u32At img (512 + 4 * 2) = ENDOFCHAIN ∧
      u32At img 60 = 2 ∧ u32At img 64 = 1 := by
  obtain ⟨himg, hname, hcount, hcap⟩ := build_ole2_some streams img h
  subst himg
  refine ⟨fun k hk => u32At_assemble_minifat streams k hk hname hcount,
    by decide, (fatTable_getD_reserved streams).2.2, ?_, ?_, ?_⟩
  · rw [u32At_assemble_fat streams 2 (by omega)]
    exact (fatTable_getD_reserved streams).2.2
  · rw [u32At_assemble_header streams 60 (by omega)]
    decide
  · rw [u32At_assemble_header streams 64 (by omega)]
    decide

/-- C9 witness: the empty input. -/
theorem C9_minifat_witness :
    u32At (assemble []) 1536 = FREESECT ∧
      u32At (assemble []) 60 = 2 ∧ u32At (assemble []) 64 = 1 :=
  ⟨by simpa using (C9_minifat [] (assemble []) rfl).1 0 (by omega),
   (C9_minifat [] (assemble []) rfl).2.2.2.2.1,
   (C9_minifat [] (assemble []) rfl).2.2.2.2.2⟩

/-- C4 counterexample: the claim reads the header fields in order as
minor version then major version and asserts the values 3 and 0x3E; in
the emitted header the 16-bit field at offset 24 (the minor-version
slot) holds 0x3E and the field at offset 26 (the major-version slot)
holds 3, so the claim's assignment is reversed. -/
theorem C4_header_counterexample :
    build_ole2 [] = some (assemble []) ∧
      u16At (assemble []) 24 = 0x3E ∧ u16At (assemble []) 26 = 0x0003 ∧
      (0x3E : Nat) ≠ 0x0003 := by
  refine ⟨rfl, ?_, ?_, by decide⟩
  · rw [u16At_assemble_header [] 24 (by omega)]
    decide
  · rw [u16At_assemble_header [] 26 (by omega)]
    decide

/-- C4 (amended): for every accepted input, the first 512 bytes of the
output are the fixed header containing, in order: the 8-byte magic
signature, a 16-byte zero CLSID, minor version 0x3E and major version
3, byte-order marker 0xFFFE, sector-size shift 9, mini-sector-size
shift 6, directory sector count 0, FAT sector count 1, and first
directory sector index 1. -/
theorem C4_header_fields (streams : List Stream) (img : List Nat)
    (h : build_ole2 streams = some img) :
    img.take 512 = header ∧
      img.take 8 = [0xD0, 0xCF, 0x11, 0xE0, 0xA1, 0xB1, 0x1A, 0xE1] ∧
      (∀ i, i < 24 → 8 ≤ i → byteAt img i = 0) ∧
      u16At img 24 = 0x3E ∧ u16At img 26 = 0x0003 ∧
      u16At img 28 = 0xFFFE ∧ u16At img 30 = 9 ∧ u16At img 32 = 6 ∧
      u32At img 40 = 0 ∧ u32At img 44 = 1 ∧ u32At img 48 = 1 := by
  obtain ⟨himg, hname, hcount, hcap⟩ := build_ole2_some streams img h
  subst himg
  have htake : (assemble streams).take 512 = header := by
    rw [assemble_eq, List.take_append_of_le_length (by rw [header_length]),
      ← header_length, List.take_length]
  refine ⟨htake, ?_, ?_, ?_, ?_, ?_, ?_, ?_, ?_, ?_, ?_⟩
  · rw [assemble_eq, List.take_append_of_le_length (by rw [header_length]; omega)]
    decide
  · intro i h1 h2
    rw [byteAt_assemble_header streams i (by omega)]
    revert h2 h1 i
    decide
  all_goals
    first
      | (rw [u16At_assemble_header streams _ (by omega)]; decide)
      | (rw [u32At_assemble_header streams _ (by omega)]; decide)

/-- C4 witness: the empty input. -/
theorem C4_header_fields_witness :
    (assemble []).take 512 = header :=
  (C4_header_fields [] (assemble []) rfl).1

/-- C8: `_dir_entry` returns exactly 128 bytes for every name of at
most 31 UTF-16 code units (its length assertion cannot fail), and the
4-entry directory sector assembled from such names is exactly 512
bytes. -/
theorem C8_dir_entry_size :
    (∀ name objType start size child left right, name.length ≤ 31 →
      (dir_entry name objType start size child left right).length = 128) ∧
    (∀ streams : List Stream, (∀ st ∈ streams, st.name.length ≤ 31) →
      streams.length ≤ 3 → (dirSector streams).length = 512) :=
  ⟨fun name objType start size child left right h =>
    dir_entry_length name objType start size child left right h,
   fun streams hn hc => dirSector_length streams hn hc⟩

/-- C8 witness: the Root entry name and the empty directory. -/
theorem C8_dir_entry_size_witness :
    (dir_entry rootName 5 ENDOFCHAIN 0 1 NOSTREAM NOSTREAM).length = 128 ∧
      (dirSector []).length = 512 :=
  ⟨C8_dir_entry_size.1 rootName 5 ENDOFCHAIN 0 1 NOSTREAM NOSTREAM (by decide),
   C8_dir_entry_size.2 [] (by simp) (by decide)⟩

/-- The `k`-th stream entry produced by `streamEntries`. -/
theorem streamEntries_getD (sts : List Stream) (ss : List Nat) (i k : Nat)
    (hk : k < sts.length) (hss : sts.length ≤ ss.length) :
    (streamEntries sts ss i).getD k [] =
      dir_entry (sts.getD k default).name 2 (ss.getD k 0)
        ((sts.getD k default).data).length NOSTREAM NOSTREAM
        (if k + 1 < sts.length then i + k + 2 else NOSTREAM) := by
  induction sts generalizing ss i k with
  | nil => simp at hk
  | cons st rest ih =>
      cases ss with
      | nil => simp at hss
      | cons s ss2 =>
          cases k with
          | zero =>
              simp only [streamEntries, List.getD_cons_zero]
              cases rest with
              | nil => simp
              | cons r rest2 => simp
          | succ k2 =>
              simp only [streamEntries, List.getD_cons_succ]
              rw [ih ss2 (i + 1) k2 (by simpa using hk) (by simpa using hss)]
              by_cases h2 : k2 + 1 < rest.length
              · rw [if_pos h2, if_pos (by simp only [List.length_cons]; omega)]
                congr 1
                omega
              · rw [if_neg h2, if_neg (by simp only [List.length_cons]; omega)]

/-- Directory entries of streams are at positions 1..N. -/
theorem dirEntriesList_getD_stream (streams : List Stream) (i : Nat)
    (h1 : 1 ≤ i) (h2 : i ≤ streams.length) :
    (dirEntriesList streams).getD i [] =
      dir_entry (streams.getD (i - 1) default).name 2
        ((sectorStarts streams).getD (i - 1) 0)
        ((streams.getD (i - 1) default).data).length NOSTREAM NOSTREAM
        (if i < streams.length then i + 1 else NOSTREAM) := by
  have hse : (streamEntries streams (sectorStarts streams) 0).length =
      streams.length :=
    streamEntries_length_eq _ _ _ (by rw [sectorStarts, sectorStartsFrom_length])
  simp only [dirEntriesList]
  rw [List.getD_append _ _ _ _ (by simp only [List.length_cons, hse]; omega)]
  obtain ⟨i2, rfl⟩ : ∃ i2, i = i2 + 1 := ⟨i - 1, by omega⟩
  rw [List.getD_cons_succ,
    streamEntries_getD streams _ 0 i2 (by omega)
      (by rw [sectorStarts, sectorStartsFrom_length])]
  simp only [Nat.add_sub_cancel]
  congr 1
  by_cases h3 : i2 + 1 < streams.length
  · rw [if_pos h3, if_pos h3]
    omega
  · rw [if_neg h3, if_neg h3]

/-- The Root directory entry at position 0. -/
theorem dirEntriesList_getD_root (streams : List Stream) :
    (dirEntriesList streams).getD 0 [] =
      dir_entry rootName 5 ENDOFCHAIN 0
        (if streams.length = 0 then NOSTREAM else 1) NOSTREAM NOSTREAM := by
  simp only [dirEntriesList, List.cons_append, List.getD_cons_zero]

/-- Unused directory records at positions N+1..3 are all-zero. -/
theorem dirEntriesList_getD_pad (streams : List Stream) (i : Nat)
    (h1 : streams.length < i) (h2 : i < 4) :
    (dirEntriesList streams).getD i [] = List.replicate 128 0 := by
  have hse : (streamEntries streams (sectorStarts streams) 0).length =
      streams.length :=
    streamEntries_length_eq _ _ _ (by rw [sectorStarts, sectorStartsFrom_length])
  simp only [dirEntriesList]
  rw [List.getD_append_right _ _ _ _ (by simp only [List.length_cons, hse]; omega),
    getD_replicate]
  simp only [List.length_cons, hse]
  rw [if_pos (by omega)]

/-- C6: for every accepted input list (length ≤ 3), the directory
sector holds exactly 4 records of 128 bytes each: record 0 is the Root
whose child link is 1 when streams exist and `NOSTREAM` otherwise; each
stream record `i` (1-indexed) has right sibling `i+1` when a next
stream exists and `NOSTREAM` otherwise, and a `NOSTREAM` left sibling;
records past the last stream are all-zero. -/
theorem C6_directory (streams : List Stream) (img : List Nat)
    (h : build_ole2 streams = some img) :
    (dirEntriesList streams).length = 4 ∧
      (∀ e ∈ dirEntriesList streams, e.length = 128) ∧
      u32At ((dirEntriesList streams).getD 0 []) 76 =
        (if streams.length = 0 then NOSTREAM else 1) ∧
      (∀ i, 1 ≤ i → i ≤ streams.length →
        u32At ((dirEntriesList streams).getD i []) 68 = NOSTREAM ∧
        u32At ((dirEntriesList streams).getD i []) 72 =
          (if i < streams.length then i + 1 else NOSTREAM)) ∧
      (∀ i, streams.length < i → i < 4 →
        (dirEntriesList streams).getD i [] = List.replicate 128 0) := by
  obtain ⟨himg, hname, hcount, hcap⟩ := build_ole2_some streams img h
  refine ⟨dirEntriesList_length streams hcount,
    dirEntriesList_entry_length streams hname, ?_, ?_,
    fun i h1 h2 => dirEntriesList_getD_pad streams i h1 h2⟩
  · rw [dirEntriesList_getD_root streams,
      dir_entry_u32_child _ _ _ _ _ _ _ (by decide)
        (by split <;> simp [NOSTREAM])]
  · intro i h1 h2
    have hmem : streams.getD (i - 1) default ∈ streams := by
      rw [List.getD_eq_getElem _ _ (by omega)]
      exact List.getElem_mem _
    have hn31 : ((streams.getD (i - 1) default).name).length ≤ 31 :=
      hname _ hmem
    rw [dirEntriesList_getD_stream streams i h1 h2]
    constructor
    · rw [dir_entry_u32_left _ _ _ _ _ _ _ hn31 (by simp [NOSTREAM])]
    · rw [dir_entry_u32_right _ _ _ _ _ _ _ hn31 ?_]
      split
      · omega
      · simp [NOSTREAM]

/-- C6 witness: one stream. -/
theorem C6_directory_witness :
    u32At ((dirEntriesList [⟨[80], [7]⟩]).getD 0 []) 76 = 1 ∧
      u32At ((dirEntriesList [⟨[80], [7]⟩]).getD 1 []) 72 = NOSTREAM := by
  have hc := C6_directory [⟨[80], [7]⟩] (assemble [⟨[80], [7]⟩]) rfl
  refine ⟨by simpa using hc.2.2.1, ?_⟩
  have := (hc.2.2.2.1 1 (by omega) (by simp)).2
  simpa using this

/-- C5: for every stream list accepted by `build_ole2`, the 128-entry
FAT has entries 0/1/2 equal to `FATSECT`/`ENDOFCHAIN`/`ENDOFCHAIN`; for
each stream `i`, its contiguous run `[s, s+n)` has entries `s..s+n-2`
holding `s+1..s+n-1` (each inside `[3, totalSectors)`) and entry
`s+n-1` equal to `ENDOFCHAIN`; every entry at or past `totalSectors` is
`FREESECT`; and the image's FAT sector bytes encode exactly these
entries. -/
theorem C5_fat (streams : List Stream) (img : List Nat)
    (h : build_ole2 streams = some img) :
    (fatTable streams).length = 128 ∧
      (fatTable streams).getD 0 0 = FATSECT ∧
      (fatTable streams).getD 1 0 = ENDOFCHAIN ∧
      (fatTable streams).getD 2 0 = ENDOFCHAIN ∧
      (∀ i, i < streams.length →
        (∀ j, j + 1 < sectorsFor ((streams.getD i default).data) →
          (fatTable streams).getD ((sectorStarts streams).getD i 0 + j) 0 =
              (sectorStarts streams).getD i 0 + j + 1 ∧
            3 ≤ (sectorStarts streams).getD i 0 + j + 1 ∧
            (sectorStarts streams).getD i 0 + j + 1 < totalSectors streams) ∧
        (fatTable streams).getD
            ((sectorStarts streams).getD i 0 +
              (sectorsFor ((streams.getD i default).data) - 1)) 0 =
          ENDOFCHAIN) ∧
      (∀ k, totalSectors streams ≤ k → k < 128 →
        (fatTable streams).getD k 0 = FREESECT) ∧
      (∀ k, k < 128 → u32At img (512 + 4 * k) = (fatTable streams).getD k 0) := by
  obtain ⟨himg, hname, hcount, hcap⟩ := build_ole2_some streams img h
  subst himg
  refine ⟨fatTable_length streams, (fatTable_getD_reserved streams).1,
    (fatTable_getD_reserved streams).2.1, (fatTable_getD_reserved streams).2.2,
    ?_, fun k hk1 hk2 => fatTable_getD_free streams k hk1 hk2,
    fun k hk => u32At_assemble_fat streams k hk⟩
  intro i hi
  have hn1 : 1 ≤ sectorsFor ((streams.getD i default).data) := le_max_left _ _
  have hge := sectorStartsFrom_getD_ge 3 streams i hi
  have hadd := sectorStartsFrom_getD_add_le 3 streams i hi
  constructor
  · intro j hj
    rw [fatTable_getD_run streams i j hi (by omega) hcap, if_pos hj]
    refine ⟨rfl, by rw [sectorStarts] at *; omega, ?_⟩
    rw [sectorStarts] at *
    simp only [totalSectors]
    omega
  · rw [fatTable_getD_run streams i _ hi (by omega) hcap,
      if_neg (by omega)]

/-- C5 witness: one single-sector stream, run `[3, 4)`. -/
theorem C5_fat_witness :
    (fatTable [⟨[80], [7]⟩]).getD 0 0 = FATSECT ∧
      (fatTable [⟨[80], [7]⟩]).getD 3 0 = ENDOFCHAIN := by
  have hc := C5_fat [⟨[80], [7]⟩] (assemble [⟨[80], [7]⟩]) rfl
  refine ⟨hc.2.1, ?_⟩
  have := (hc.2.2.2.2.1 0 (by simp)).2
  simpa [sectorStarts, sectorStartsFrom, sectorsFor, ceilDiv, SECTOR] using this

/-! ### C1: the single "PowerPoint Document" stream -/

/-- "PowerPoint Document" as UTF-16 code units. -/
def pptName : List Nat :=
  [80, 111, 119, 101, 114, 80, 111, 105, 110, 116, 32,
   68, 111, 99, 117, 109, 101, 110, 116]

/-- The C1 input: one stream named "PowerPoint Document" with a
payload of 4096 zero bytes. -/
def c1stream : Stream := ⟨pptName, List.replicate 4096 0⟩

theorem c1_data : c1stream.data = List.replicate 4096 0 := rfl

theorem c1_name : c1stream.name = pptName := rfl

theorem c1_getD : List.getD [c1stream] 0 default = c1stream := rfl

theorem c1_sectors : sectorsFor (List.replicate 4096 0) = 8 := by
  show max 1 (ceilDiv (List.replicate 4096 0).length SECTOR) = 8
  rw [List.length_replicate]
  decide

theorem c1_n : sectorsFor ((List.getD [c1stream] 0 default).data) = 8 := by
  rw [c1_getD, c1_data, c1_sectors]

theorem c1_total : totalSectors [c1stream] = 11 := by
  rw [totalSectors, sumSectors]
  simp only [List.map_cons, List.map_nil, List.sum_cons, List.sum_nil]
  rw [c1_data, c1_sectors]
  decide

theorem c1_build : build_ole2 [c1stream] = some (assemble [c1stream]) := by
  rw [build_ole2, if_neg (by decide), if_neg (by decide),
    if_neg (by rw [c1_total]; omega)]

theorem c1_start : (sectorStarts [c1stream]).getD 0 0 = 3 := by
  simp only [sectorStarts, sectorStartsFrom, List.getD_cons_zero]

theorem c1_fat3 : (fatTable [c1stream]).getD 3 0 = 4 := by
  have h := fatTable_getD_run [c1stream] 0 0 (by simp)
    (by rw [c1_n]; omega) (by rw [c1_total]; omega)
  rw [c1_start, c1_n] at h
  simpa using h

theorem c1_fat10 : (fatTable [c1stream]).getD 10 0 = ENDOFCHAIN := by
  have h := fatTable_getD_run [c1stream] 0 7 (by simp)
    (by rw [c1_n]; omega) (by rw [c1_total]; omega)
  rw [c1_start, c1_n] at h
  simpa using h

theorem c1_entry : (dirEntriesList [c1stream]).getD 1 [] =
    dir_entry pptName 2 3 4096 NOSTREAM NOSTREAM NOSTREAM := by
  rw [dirEntriesList_getD_stream [c1stream] 1 (by omega) (by simp),
    show (1 : Nat) - 1 = 0 from rfl, c1_start, c1_getD, c1_data,
    List.length_replicate, c1_name, if_neg (by simp)]

theorem c1_hname : ∀ st ∈ [c1stream], st.name.length ≤ 31 := by decide

/-- C1 counterexample: on the claim's input the payload spans 8
sectors (3..10), so FAT entry 3 holds the next sector index 4, not
`ENDOFCHAIN`. -/
theorem C1_counterexample :
    build_ole2 [c1stream] = some (assemble [c1stream]) ∧
      u32At (assemble [c1stream]) (512 + 4 * 3) = 4 ∧
      (4 : Nat) ≠ ENDOFCHAIN := by
  refine ⟨c1_build, ?_, by decide⟩
  rw [u32At_assemble_fat [c1stream] 3 (by omega)]
  exact c1_fat3

/-- C1 (amended): for the single-stream input
`[("PowerPoint Document", 4096 zero bytes)]`, `build_ole2` returns an
image of exactly 2048 + 4096 = 6144 bytes in which the FAT chain runs
through sectors 3..10 — entry 3 holds 4 and entry 10 holds
`ENDOFCHAIN` — and directory entry 1 names "PowerPoint Document" with
start sector 3 and stream byte size 4096. -/
theorem C1_single_stream :
    build_ole2 [c1stream] = some (assemble [c1stream]) ∧
      (assemble [c1stream]).length = 6144 ∧
      (fatTable [c1stream]).getD 3 0 = 4 ∧
      (fatTable [c1stream]).getD 10 0 = ENDOFCHAIN ∧
      u32At (assemble [c1stream]) (512 + 4 * 3) = 4 ∧
      u32At (assemble [c1stream]) (512 + 4 * 10) = ENDOFCHAIN ∧
      (dirEntriesList [c1stream]).getD 1 [] =
        dir_entry pptName 2 3 4096 NOSTREAM NOSTREAM NOSTREAM ∧
      u32At (assemble [c1stream]) (1024 + (128 * 1 + 116)) = 3 ∧
      u32At (assemble [c1stream]) (1024 + (128 * 1 + 120)) = 4096 := by
  have hcount : ([c1stream] : List Stream).length ≤ 3 := by simp
  refine ⟨c1_build, ?_, c1_fat3, c1_fat10, ?_, ?_, c1_entry, ?_, ?_⟩
  · rw [assemble_length [c1stream] c1_hname hcount, body_length]
    simp only [List.map_cons, List.map_nil, List.sum_cons, List.sum_nil]
    rw [c1_data, List.length_replicate]
    decide
  · rw [u32At_assemble_fat [c1stream] 3 (by omega)]
    exact c1_fat3
  · rw [u32At_assemble_fat [c1stream] 10 (by omega)]
    exact c1_fat10
  · rw [u32At_assemble_dir [c1stream] (128 * 1 + 116) (by omega) c1_hname hcount,
      u32At_dirSector_entry [c1stream] 1 116 c1_hname hcount (by omega) (by omega),
      c1_entry, dir_entry_u32_start _ _ _ _ _ _ _ (by decide) (by omega)]
  · rw [u32At_assemble_dir [c1stream] (128 * 1 + 120) (by omega) c1_hname hcount,
      u32At_dirSector_entry [c1stream] 1 120 c1_hname hcount (by omega) (by omega),
      c1_entry, dir_entry_u32_size _ _ _ _ _ _ _ (by decide) (by omega)]

/-! ### C3: sub-cutoff payloads are not padded to 4096 by the writer -/

/-- A one-byte payload stream. -/
def c3stream : Stream := ⟨[80], [7]⟩

/-- C3 counterexample: `build_ole2` stores a 1-byte payload in a
single 512-byte sector — well below the 4096-byte mini-stream cutoff —
and records stream size 1, so `build_ole2` itself does not pad payloads
up to 4096 bytes. -/
theorem C3_counterexample :
    build_ole2 [c3stream] = some (assemble [c3stream]) ∧
      (assemble [c3stream]).length = 2560 ∧
      (body [c3stream]).length = 512 ∧
      u32At (assemble [c3stream]) (1024 + (128 * 1 + 120)) = 1 ∧
      (512 : Nat) < 4096 ∧ (1 : Nat) < 4096 := by
  have hname : ∀ st ∈ [c3stream], st.name.length ≤ 31 := by simp [c3stream]
  have hcount : ([c3stream] : List Stream).length ≤ 3 := by simp
  have hbody : (body [c3stream]).length = 512 := by
    rw [body_length]
    simp [c3stream, ceilDiv, SECTOR]
  have hentry : (dirEntriesList [c3stream]).getD 1 [] =
      dir_entry [80] 2 3 1 NOSTREAM NOSTREAM NOSTREAM := by
    rw [dirEntriesList_getD_stream [c3stream] 1 (by omega) (by simp)]
    simp [c3stream, sectorStarts, sectorStartsFrom]
  refine ⟨rfl, ?_, hbody, ?_, by decide, by decide⟩
  · rw [assemble_length [c3stream] hname hcount, hbody]
  · rw [u32At_assemble_dir [c3stream] (128 * 1 + 120) (by omega) hname hcount,
      u32At_dirSector_entry [c3stream] 1 120 hname hcount (by omega) (by omega),
      hentry, dir_entry_u32_size _ _ _ _ _ _ _ (by decide) (by omega)]

/-- "Legacy Word Test" as latin-1 bytes. -/
def docTitle : List Nat :=
  [76, 101, 103, 97, 99, 121, 32, 87, 111, 114, 100, 32, 84, 101, 115, 116]

/-- "DocReader Tests" as latin-1 bytes. -/
def docAuthor : List Nat :=
  [68, 111, 99, 82, 101, 97, 100, 101, 114, 32, 84, 101, 115, 116, 115]

/-- The summary stream written by `make_doc_10page`. -/
def docSummary : List Nat := make_summary_stream 10 docTitle docAuthor

/-- `make_doc_10page` pads the summary stream to 4096 bytes with
`ljust` before handing it to `build_ole2`. -/
def docPayload : List Nat := ljust docSummary 4096 0

/-- One empty SlideContainer record of `make_ppt_5slide`. -/
def pptRecord : List Nat := le16 0x000F ++ le16 0x03E8 ++ le32 0

/-- The five SlideContainer records of `make_ppt_5slide`. -/
def pptSlideRecords : List Nat := (List.replicate 5 pptRecord).flatten

/-- `make_ppt_5slide` pads the slide stream to 4096 bytes with `ljust`
before handing it to `build_ole2`. -/
def pptPayload : List Nat := ljust pptSlideRecords 4096 0

set_option maxRecDepth 8000 in
/-- C3 (amended): `build_ole2` pads each stored payload only up to the
next 512-byte sector boundary (a payload of length `L` occupies
`ceil(L/512)*512` body bytes), so only payloads already ≥ 4096 bytes
occupy ≥ 4096 bytes; the 4096-byte minimum is established by the
callers `make_doc_10page` and `make_ppt_5slide`, which `ljust`-pad
their payloads to exactly 4096 bytes before calling `build_ole2`. -/
theorem C3_sector_padding :
    (∀ streams, body streams = (streams.map bodyChunk).flatten) ∧
      (∀ st : Stream, (bodyChunk st).length =
        ceilDiv st.data.length 512 * 512) ∧
      (∀ st : Stream, 4096 ≤ st.data.length → 4096 ≤ (bodyChunk st).length) ∧
      docPayload.length = 4096 ∧ pptPayload.length = 4096 := by
  have hdoc : docSummary.length = 138 := by decide
  have hppt : pptSlideRecords.length = 40 := by decide
  refine ⟨body_eq, fun st => bodyChunk_length st, ?_, ?_, ?_⟩
  · intro st h
    rw [bodyChunk_length st]
    simp only [SECTOR, ceilDiv]
    omega
  · simp only [docPayload, ljust, List.length_append, List.length_replicate,
      hdoc]
  · simp only [pptPayload, ljust, List.length_append, List.length_replicate,
      hppt]

/-- C3 witness for the amended claim. -/
theorem C3_sector_padding_witness :
    body [] = (([] : List Stream).map bodyChunk).flatten ∧
      4096 ≤ (bodyChunk ⟨[], List.replicate 4096 0⟩).length :=
  ⟨C3_sector_padding.1 [],
   C3_sector_padding.2.2.1 _ (by rw [List.length_replicate])⟩

/-! ### C2 and C10: the SummaryInformation property set -/

theorem le32i_length (v : Int) : (le32i v).length = 4 := rfl

theorem summaryStreamHeader_length : summaryStreamHeader.length = 48 := by decide

/-- C2 counterexample: with only the page-count property the section's
declared size field holds 24 (the final aligned offset) while the
emitted section is 22 bytes long — the `VT_I4` value is 6 bytes and the
last value is written without trailing alignment padding. -/
theorem C2_counterexample :
    u32At (make_summary_stream 10 [] []) 48 = 24 ∧
      (propSetSection (summaryProps 10 [] [])).length = 22 ∧
      (24 : Nat) ≠ 22 := by
  refine ⟨by decide, by decide, by decide⟩

/-- C2 (amended): for every `make_summary_stream page_count` call with
empty title and author, the section contains exactly one property with
ID 0x0E, and the declared 32-bit section size equals the true encoded
section length rounded up to the next 4-byte boundary: declared 24
versus 22 actually emitted bytes. -/
theorem C2_section_size (page_count : Int) :
    (summaryProps page_count [] []).length = 1 ∧
      (summaryProps page_count [] []).getD 0 (0, []) =
        prop_i4 0x0E page_count ∧
      u32At (make_summary_stream page_count [] []) 52 = 1 ∧
      u32At (make_summary_stream page_count [] []) 56 = 0x0E ∧
      (propSetSection (summaryProps page_count [] [])).length = 22 ∧
      u32At (make_summary_stream page_count [] []) 48 = 24 ∧
      (24 : Nat) = (22 + 3) / 4 * 4 := by
  have hsec : propSetSection (summaryProps page_count [] []) =
      le32 24 ++ le32 1 ++ (le32 0x0E ++ le32 16 ++ List.nil)
        ++ (le16 3 ++ le32i page_count) := by
    with_unfolding_all rfl
  refine ⟨by with_unfolding_all rfl, by with_unfolding_all rfl, ?_, ?_, ?_, ?_,
    by decide⟩
  · rw [make_summary_stream,
      u32At_append_right summaryStreamHeader _ 52 4
        (by rw [summaryStreamHeader_length]),
      hsec]
    simp only [List.append_assoc]
    rw [u32At_append_right (le32 24) _ 4 0 (by rw [le32_length])]
    exact u32At_le32_append 1 _ (by decide)
  · rw [make_summary_stream,
      u32At_append_right summaryStreamHeader _ 56 8
        (by rw [summaryStreamHeader_length]),
      hsec]
    simp only [List.append_assoc]
    rw [u32At_append_right (le32 24) _ 8 4 (by rw [le32_length]),
      u32At_append_right (le32 1) _ 4 0 (by rw [le32_length])]
    exact u32At_le32_append 0x0E _ (by decide)
  · rw [hsec]
    simp only [List.length_append, le32_length, le16_length, le32i_length,
      List.length_nil]
  · rw [make_summary_stream,
      u32At_append_right summaryStreamHeader _ 48 0
        (by rw [summaryStreamHeader_length]),
      hsec]
    simp only [List.append_assoc]
    exact u32At_le32_append 24 _ (by decide)

/-- C10: the page-count property (ID 0x0E) is always present and is
the last property in the section; a title property (ID 0x02) or author
property (ID 0x04) is included exactly when the corresponding string is
non-empty, so an empty string behaves like an omitted value. -/
theorem C10_page_count_last (page_count : Int) (title author : List Nat) :
    summaryProps page_count title author ≠ [] ∧
      (summaryProps page_count title author).getLast? =
        some (prop_i4 0x0E page_count) ∧
      u32At (make_summary_stream page_count title author)
          (48 + 8 + 8 * ((summaryProps page_count title author).length - 1)) =
        0x0E ∧
      ((∃ p ∈ summaryProps page_count title author, p.1 = 0x02) ↔
        title ≠ []) ∧
      ((∃ p ∈ summaryProps page_count title author, p.1 = 0x04) ↔
        author ≠ []) := by
  rcases title with _ | ⟨t, ts⟩ <;> rcases author with _ | ⟨a, as⟩ <;>
    exact ⟨by simp [summaryProps], by with_unfolding_all rfl,
      by with_unfolding_all rfl,
      by simp [summaryProps, prop_i4, prop_str],
      by simp [summaryProps, prop_i4, prop_str]⟩

end DocReader
